import Mathlib

/-!
Verification of the coreason-publisher core against its design specification.

The Python sources are shallowly embedded:
* pure string manipulation (`str.lstrip`, `str.split`, `int(...)`,
  `str.splitlines`, `"\n".join`) is reproduced as executable Lean functions
  with Python's semantics;
* the filesystem is an explicit data type (entries with relative path parts,
  kind, byte content, readability), and `hashlib.sha256(...).hexdigest()` is
  an abstract digest function `H` supplied as a parameter;
* orchestrator workflows are modelled as trace-producing functions over
  stubbed collaborator results, mirroring the exact call sequence of the
  source.
-/

namespace CoreasonPublisher

/-! ## Python string primitives -/

/-- Whitespace characters stripped by Python's `int(...)` and `str.strip()`
(ASCII subset, which covers all inputs considered here). -/
def isPyWs (c : Char) : Bool :=
  c = ' ' || c = '\t' || c = '\n' || c = '\x0d' || c = '\x0b' || c = '\x0c'

/-- Python `s.split(sep)` for a single-character separator: every occurrence
splits, empty fields are kept, and the empty string yields `[""]`. -/
def pySplitChar (sep : Char) : List Char → List Char → List String
  | [], acc => [String.mk acc.reverse]
  | c :: cs, acc =>
    if c = sep then String.mk acc.reverse :: pySplitChar sep cs []
    else pySplitChar sep cs (c :: acc)

/-- Python `s.split(".")`. -/
def pySplitDot (s : String) : List String :=
  pySplitChar '.' s.data []

/-- Digit run of a Python integer literal: decimal digits where a single
underscore may appear between two digits (`int("1_0") = 10`). -/
def pyDigitsAux : Nat → List Char → Option Nat
  | acc, [] => some acc
  | acc, c :: cs =>
    if c.isDigit then pyDigitsAux (acc * 10 + (c.toNat - 48)) cs
    else if c = '_' then
      match cs with
      | c2 :: cs2 =>
        if c2.isDigit then pyDigitsAux (acc * 10 + (c2.toNat - 48)) cs2 else none
      | [] => none
    else none

/-- Nonempty digit sequence (first character must be a digit). -/
def pyDigits : List Char → Option Nat
  | [] => none
  | c :: cs => if c.isDigit then pyDigitsAux (c.toNat - 48) cs else none

/-- Python's `int(str)`: optional surrounding whitespace, optional sign,
then a digit run (underscores allowed between digits).  Anything else
raises `ValueError`, modelled as `none`. -/
def pyInt (s : String) : Option Int :=
  let cs := ((s.data.dropWhile isPyWs).reverse.dropWhile isPyWs).reverse
  match cs with
  | '+' :: rest => (pyDigits rest).map (fun n => (n : Int))
  | '-' :: rest => (pyDigits rest).map (fun n => -(n : Int))
  | rest => (pyDigits rest).map (fun n => (n : Int))

/-- Prefix test on character lists (`str.startswith`). -/
def startsList : List Char → List Char → Bool
  | [], _ => true
  | _ :: _, [] => false
  | a :: as, b :: bs => a == b && startsList as bs

/-- Substring test (Python's `needle in haystack`). -/
def containsList (n : List Char) : List Char → Bool
  | [] => n.isEmpty
  | c :: rest => startsList n (c :: rest) || containsList n rest

def pyContains (needle haystack : String) : Bool :=
  containsList needle.data haystack.data

/-! ## VersionManager (version_manager.py) -/

inductive BumpType
  | patch
  | minor
  | major
deriving DecidableEq

/-- Unpacking `major, minor, patch = map(int, ...)`: succeeds exactly when
the parsed list has exactly three elements (otherwise Python raises
`ValueError`, caught by the same `except` as a parse failure). -/
def unpack3 : Option (List Int) → Option (Int × Int × Int)
  | some [a, b, c] => some (a, b, c)
  | _ => none

/-- Rendered `f"v{major}.{minor}.{patch}"`. -/
def renderVersion (a b c : Int) : String :=
  "v" ++ toString a ++ "." ++ toString b ++ "." ++ toString c

/-- `VersionManager.calculate_next_version`.  `None` and `""` are falsy, so
both default to `v0.1.0`; otherwise the string is `lstrip`-ped of every
leading `'v'`, split on `'.'`, and each component parsed with `int`. -/
def calculate_next_version (currentVersion : Option String) (bumpType : BumpType) :
    Except String String :=
  match currentVersion with
  | none => .ok "v0.1.0"
  | some s =>
    if s = "" then .ok "v0.1.0"
    else
      let versionStr := String.mk (s.data.dropWhile (· = 'v'))
      match unpack3 ((pySplitDot versionStr).mapM pyInt) with
      | some (a, b, c) =>
        match bumpType with
        | .major => .ok (renderVersion (a + 1) 0 0)
        | .minor => .ok (renderVersion a (b + 1) 0)
        | .patch => .ok (renderVersion a b (c + 1))
      | none => .error ("Invalid version format: " ++ s)

instance {ε α : Type} [DecidableEq ε] [DecidableEq α] : DecidableEq (Except ε α) :=
  fun x y =>
    match x, y with
    | .ok a, .ok b =>
      match decEq a b with
      | isTrue h => isTrue (by rw [h])
      | isFalse h => isFalse (fun hh => h (Except.ok.inj hh))
    | .error a, .error b =>
      match decEq a b with
      | isTrue h => isTrue (by rw [h])
      | isFalse h => isFalse (fun hh => h (Except.error.inj hh))
    | .ok _, .error _ => isFalse nofun
    | .error _, .ok _ => isFalse nofun

/-! ## ElectronicSigner (electronic_signer.py)

The workspace is a list of directory entries in filesystem enumeration
(`rglob`) order.  Each entry carries its path relative to the bundle root as
a list of parts, its kind (`is_file()` and not `is_symlink()` selects
regular files; symlinks and directories are skipped), its byte content, and
whether reading it succeeds (`OSError` on `open`/`read` otherwise).
`hashlib.sha256` streaming is modelled by concatenating the exact byte
sequence fed to `update` and applying an abstract digest function `H`. -/

inductive EntryKind
  | regular
  | symlink
  | directory
deriving DecidableEq

structure FSEntry where
  parts : List String
  kind : EntryKind
  content : List Nat
  readable : Bool
deriving DecidableEq

structure FileSystem where
  rootExists : Bool
  entries : List FSEntry
deriving DecidableEq

/-- POSIX rendering of `str(path.relative_to(root))`: parts joined by `/`. -/
def joinSlash : List String → String
  | [] => ""
  | [p] => p
  | p :: q :: ps => p ++ "/" ++ joinSlash (q :: ps)

/-- The source's `.replace("\\", "/")` normalisation of the relative path. -/
def replaceBackslash (s : String) : String :=
  String.mk (s.data.map (fun c => if c = '\\' then '/' else c))

/-- UTF-8 encoding of one character (the byte sequence of `str.encode`). -/
def utf8Char (c : Char) : List Nat :=
  let n := c.toNat
  if n < 128 then [n]
  else if n < 2048 then [192 + n / 64, 128 + n % 64]
  else if n < 65536 then [224 + n / 4096, 128 + n / 64 % 64, 128 + n % 64]
  else [240 + n / 262144, 128 + n / 4096 % 64, 128 + n / 64 % 64, 128 + n % 64]

/-- UTF-8 byte sequence of a string. -/
def utf8Bytes (s : String) : List Nat :=
  s.data.flatMap utf8Char

/-- A file participates in the hash iff it is a regular non-symlink file and
`.git` is not among its relative path parts. -/
def entryIncluded (e : FSEntry) : Bool :=
  e.kind == .regular && !(e.parts.contains ".git")

def includedEntries (fs : FileSystem) : List FSEntry :=
  fs.entries.filter entryIncluded

/-- Sort key: the code points of the relative path string
(`files_to_hash.sort(key=lambda p: str(p.relative_to(bundle_path)))`,
Python string comparison is code-point lexicographic). -/
def entryKey (e : FSEntry) : List Nat :=
  (joinSlash e.parts).data.map Char.toNat

/-- Code-point lexicographic comparison used by the sort. -/
def lexLe : List Nat → List Nat → Bool
  | [], _ => true
  | _ :: _, [] => false
  | a :: as, b :: bs => a < b || (a == b && lexLe as bs)

def entryLe (a b : FSEntry) : Bool :=
  lexLe (entryKey a) (entryKey b)

def sortedEntries (fs : FileSystem) : List FSEntry :=
  List.insertionSort (fun a b => entryLe a b = true) (includedEntries fs)

/-- Bytes fed to the streaming hash for one file: the UTF-8 relative path
(backslashes normalised) followed by the file's byte content. -/
def entryStream (e : FSEntry) : List Nat :=
  utf8Bytes (replaceBackslash (joinSlash e.parts)) ++ e.content

/-- The full byte sequence fed to `sha256.update` over the sorted files. -/
def hashStream (fs : FileSystem) : List Nat :=
  (sortedEntries fs).flatMap entryStream

inductive SignerErr
  | notFound
  | readFailed
deriving DecidableEq

/-- `ElectronicSigner.calculate_bundle_hash`: missing root raises
`FileNotFoundError`; an unreadable selected file raises `RuntimeError`;
otherwise the digest of the streamed bytes is returned. -/
def calculate_bundle_hash {δ : Type} (H : List Nat → δ) (fs : FileSystem) :
    Except SignerErr δ :=
  if fs.rootExists then
    match (sortedEntries fs).find? (fun e => !e.readable) with
    | some _ => .error .readFailed
    | none => .ok (H (hashStream fs))
  else .error .notFound

/-- `ElectronicSigner.create_signature`: returns the bundle hash (the user
id is logged only). -/
def create_signature {δ : Type} (H : List Nat → δ) (fs : FileSystem)
    (userId : String) : Except SignerErr δ :=
  calculate_bundle_hash H fs

/-- `ElectronicSigner.verify_signature`: recompute and compare. -/
def verify_signature {δ : Type} [DecidableEq δ] (H : List Nat → δ)
    (fs : FileSystem) (signature : δ) : Except SignerErr Bool :=
  match calculate_bundle_hash H fs with
  | .error e => .error e
  | .ok h => .ok (decide (h = signature))

/-- The (relative path, byte content) pairs that determine the fingerprint. -/
def includedPairs (fs : FileSystem) : List (List String × List Nat) :=
  (includedEntries fs).map (fun e => (e.parts, e.content))

def allReadable (fs : FileSystem) : Bool :=
  (includedEntries fs).all (·.readable)

/-- Real directory trees have pairwise distinct relative path strings. -/
def keysNodup (fs : FileSystem) : Prop :=
  ((includedEntries fs).map entryKey).Nodup

/-- Replace the byte content of an entry when it sits at relative path `p`. -/
def mutateEntry (p : List String) (c : List Nat) (e : FSEntry) : FSEntry :=
  if e.parts = p then { e with content := c } else e

/-- Mutation of the byte content of the file(s) at relative path `p`. -/
def mutateContent (fs : FileSystem) (p : List String) (c : List Nat) : FileSystem :=
  { fs with entries := fs.entries.map (mutateEntry p c) }

/-! ## ArtifactBundler (artifact_bundler.py) and GitLFS.find_large_files

The remote-storage offload loop (`_handle_remote_storage`) is modelled per
scanned file: each file records what `stat()` returns (or that it raises
`OSError`), what the storage provider's `upload` returns (or which kind of
exception it raises), and whether the pointer write succeeds.  The loop
body sits inside `try ... except OSError`, so any `OSError` is logged and
the scan continues, while any other exception propagates and aborts
bundling. -/

/-- Kind of exception raised by a collaborator call: `OSError` (caught by
the per-file handler) or any other exception (propagates). -/
inductive PyExc
  | osErr
  | appErr
deriving DecidableEq

structure RSFile where
  parts : List String
  kind : EntryKind
  statSize : Except Unit Nat
  uploadResult : Except PyExc String
  writeOk : Bool
deriving DecidableEq

/-- What `_handle_remote_storage` did to one scanned file. -/
inductive RSOutcome
  | excluded
  | statFailed
  | small
  | replaced (ptr : String)
  | uploadSkipped
  | writeFailed
deriving DecidableEq

/-- One iteration of the `_handle_remote_storage` loop body. -/
def rsStep (threshold : Nat) (f : RSFile) : Except Unit RSOutcome :=
  if f.kind != .regular then .ok .excluded
  else if f.parts.contains ".git" then .ok .excluded
  else
    match f.statSize with
    | .error _ => .ok .statFailed
    | .ok size =>
      if size > threshold then
        match f.uploadResult with
        | .error .osErr => .ok .uploadSkipped
        | .error .appErr => .error ()
        | .ok h =>
          if f.writeOk then .ok (.replaced ("pointer:" ++ h ++ "\n"))
          else .ok .writeFailed
      else .ok .small

/-- `ArtifactBundler._handle_remote_storage` over the `rglob` file list:
per-file outcomes in order, or an abort when a non-`OSError` escapes. -/
def handleRemoteStorage (threshold : Nat) : List RSFile → Except Unit (List RSOutcome)
  | [] => .ok []
  | f :: fs =>
    match rsStep threshold f with
    | .error e => .error e
    | .ok o =>
      match handleRemoteStorage threshold fs with
      | .error e => .error e
      | .ok os => .ok (o :: os)

/-- `GitLFS.find_large_files`: relative POSIX paths of regular non-symlink
files outside `.git` whose size strictly exceeds the threshold; a missing
search path yields `[]`, and a per-file `stat` failure is logged and
skipped. -/
def findLargeFiles (rootPresent : Bool) (threshold : Nat) (files : List RSFile) :
    List String :=
  if !rootPresent then []
  else
    files.filterMap (fun f =>
      if f.kind == .regular && !(f.parts.contains ".git") then
        match f.statSize with
        | .ok s => if s > threshold then some (joinSlash f.parts) else none
        | .error _ => none
      else none)

/-- Index of the last occurrence of a character. -/
def lastIdxOf (c : Char) : List Char → Option Nat
  | [] => none
  | x :: xs =>
    match lastIdxOf c xs with
    | some i => some (i + 1)
    | none => if x = c then some 0 else none

/-- `pathlib.PurePath.name` of a relative path. -/
def pyName (parts : List String) : String :=
  (parts.getLast?).getD ""

/-- `pathlib.PurePath.suffix`: the final extension, empty when the last dot
is the first or the last character of the name. -/
def pySuffix (name : String) : String :=
  match lastIdxOf '.' name.data with
  | some i =>
    if 0 < i ∧ i + 1 < name.data.length then String.mk (name.data.drop i) else ""
  | none => ""

structure MvFile where
  parts : List String
  kind : EntryKind
  content : List Nat
deriving DecidableEq

/-- `ArtifactBundler._is_model_artifact`: filename in the fixed filename
set or extension in the fixed extension set. -/
def isModelArtifact (name : String) : Bool :=
  name == "adapter_config.json" ||
  (pySuffix name == ".safetensors" || pySuffix name == ".bin" || pySuffix name == ".pt")

/-- A file collected into `files_to_move`: a regular non-symlink file whose
relative parts avoid `.git`, `models` and `tests`, matching the
allow-list. -/
def moveEligible (f : MvFile) : Bool :=
  f.kind == .regular &&
  (!(f.parts.contains ".git") && !(f.parts.contains "models") &&
    !(f.parts.contains "tests")) &&
  isModelArtifact (pyName f.parts)

def filesToMove (files : List MvFile) : List MvFile :=
  files.filter moveEligible

/-- Destination of `shutil.move(src, models/distilled/<name>)`. -/
def destParts (f : MvFile) : List String :=
  ["models", "distilled", pyName f.parts]

/-- Effect of one `shutil.move`: the source entry disappears, an existing
destination entry of the same name is overwritten. -/
def moveOne (files : List MvFile) (src : MvFile) : List MvFile :=
  (files.filter (fun g => !(g.parts == src.parts) && !(g.parts == destParts src)))
    ++ [⟨destParts src, .regular, src.content⟩]

/-- `ArtifactBundler._move_model_artifacts`: collect `files_to_move` from
the scan, then move each match in order. -/
def moveModelArtifacts (files : List MvFile) : List MvFile :=
  (filesToMove files).foldl moveOne files

/-! ## Change-log rewriting (version_manager.py, `_update_changelog`) -/

/-- Line-break characters recognised by Python's `str.splitlines`. -/
def isLineBreak (c : Char) : Bool :=
  c = '\n' || c = '\x0d' || c = '\x0b' || c = '\x0c' ||
  c.toNat = 28 || c.toNat = 29 || c.toNat = 30 || c.toNat = 133 ||
  c.toNat = 8232 || c.toNat = 8233

/-- Python `str.splitlines`: a `\x0d\n` pair ends one line (the flag
records that a carriage return was just consumed, so an immediately
following `\n` is swallowed); no trailing empty line is produced for a
terminal break. -/
def splitLinesAux : Bool → List Char → List Char → List String
  | _, [], acc => if acc.isEmpty then [] else [String.mk acc.reverse]
  | skipLF, c :: cs, acc =>
    if skipLF = true ∧ c = '\n' then splitLinesAux false cs acc
    else if c = '\x0d' then String.mk acc.reverse :: splitLinesAux true cs []
    else if isLineBreak c then String.mk acc.reverse :: splitLinesAux false cs []
    else splitLinesAux false cs (c :: acc)

def pySplitlines (s : String) : List String :=
  splitLinesAux false s.data []

/-- `line.strip() != ""`. -/
def hasNonWs (s : String) : Bool :=
  s.data.any (fun c => !isPyWs c)

/-- `line.startswith("## [")`: the test selecting version headings. -/
def startsHeading (l : String) : Bool :=
  startsList "## [".data l.data

/-- Python `"\n".join(lines)`. -/
def joinLF : List String → String
  | [] => ""
  | [l] => l
  | l :: l2 :: ls => l ++ "\n" ++ joinLF (l2 :: ls)

/-- The dated section prepended for a release
(`f"## [<version stripped of leading v>] - <date>"` plus the fixed body). -/
def changelogEntry (newVersion dateStr : String) : String :=
  "## [" ++ String.mk (newVersion.data.dropWhile (· = 'v')) ++ "] - " ++ dateStr ++
    "\n\n- No changes documented.\n"

/-- `VersionManager._update_changelog` on an existing file's decoded text:
split into lines, insert the new entry before the first `## [` heading
(with a blank separator when the displaced line is nonblank), or append
a blank line and the entry when no heading exists; rejoin with `\n` and a
final newline. -/
def updateChangelogContent (newVersion dateStr content : String) : String :=
  joinLF
    (match (pySplitlines content).dropWhile (fun l => !startsHeading l) with
     | [] => pySplitlines content ++ ["", changelogEntry newVersion dateStr]
     | h :: t =>
       (pySplitlines content).takeWhile (fun l => !startsHeading l) ++
         changelogEntry newVersion dateStr ::
           (if hasNonWs h then "" :: h :: t else h :: t)) ++ "\n"

/-! ## GitLFS readiness (git_lfs.py) and the orchestrator (orchestrator.py)

Collaborators are stubbed: each call's outcome is an input to the workflow
function, which returns the sequence of collaborator calls it performed
(in order) together with the overall result, mirroring the source's
statement order exactly. -/

/-- Observable state of the `git-lfs` installation that
`GitLFS.verify_ready` inspects. -/
structure LfsState where
  installed : Bool
  initialized : Bool
  hookExists : Bool
  hookContent : String
  hookExecutable : Bool
deriving DecidableEq

/-- `GitLFS.verify_ready`: raises `RuntimeError` unless the tool is
installed, initialized in the repo, and the `pre-push` hook exists, appears
to call git-lfs, and is executable. -/
def verify_ready (st : LfsState) : Except String Unit :=
  if !st.installed then .error "Git LFS is not installed on the system."
  else if !st.initialized then .error "Git LFS is not initialized."
  else if !st.hookExists then .error "Git LFS pre-push hook is missing."
  else if !(pyContains "git-lfs" st.hookContent || pyContains "git lfs" st.hookContent) then
    .error "Git LFS pre-push hook exists but does not appear to call git-lfs."
  else if !st.hookExecutable then .error "Git LFS pre-push hook is not executable."
  else .ok ()

/-- Collaborator calls made by `propose_release`, in source order. -/
inductive PropEvent
  | fetchReport
  | checkoutBranch
  | updateFiles
  | bundle
  | sign
  | addAll
  | commit
  | verifyLfs
  | push
  | createMR
  | submitForReview
  | postComment
deriving DecidableEq

/-- `PublisherOrchestrator.propose_release` with the steps before the LFS
check succeeding (their stubs are not varied here): fetch report, compute
versions, branch, update files, bundle, sign, commit; then
`git_lfs.verify_ready` (abort on error), push, `create_merge_request`
(abort on error, before notifying the draft service), `submit_for_review`,
and the cross-reference comment. -/
def propose_release (lfs : LfsState) (mrResult : Except String Nat) :
    List PropEvent × Except String Unit :=
  let t0 : List PropEvent :=
    [.fetchReport, .checkoutBranch, .updateFiles, .bundle, .sign, .addAll, .commit]
  match verify_ready lfs with
  | .error e => (t0 ++ [.verifyLfs], .error e)
  | .ok _ =>
    match mrResult with
    | .error e => (t0 ++ [.verifyLfs, .push, .createMR], .error e)
    | .ok _ => (t0 ++ [.verifyLfs, .push, .createMR, .submitForReview, .postComment], .ok ())

/-- Collaborator calls made by `finalize_release`, in source order. -/
inductive FinEvent
  | verify
  | audit
  | merge
  | tag
  | approve
deriving DecidableEq

/-- `PublisherOrchestrator.finalize_release`: verify the signature against
the workspace (abort with `ValueError` when it does not match), read the
current version (abort when falsy), then merge the merge request, create
the tag, and notify the draft-review service of approval.  The audit sink
(`send_audit_to_veritas`) is never called. -/
def finalize_release (verifyResult : Bool) (currentVersion : Option String) :
    List FinEvent × Except String Unit :=
  if !verifyResult then
    ([.verify], .error "Signature verification failed.")
  else
    match currentVersion with
    | none => ([.verify], .error "Could not determine version from workspace.")
    | some v =>
      if v = "" then ([.verify], .error "Could not determine version from workspace.")
      else ([.verify, .merge, .tag, .approve], .ok ())

/-! ## Theorems -/

theorem lexLe_total : ∀ a b : List Nat, lexLe a b = true ∨ lexLe b a = true
  | [], _ => Or.inl rfl
  | _ :: _, [] => Or.inr rfl
  | a :: as, b :: bs => by
    rcases Nat.lt_trichotomy a b with h | h | h
    · exact Or.inl (by simp [lexLe, h])
    · subst h
      rcases lexLe_total as bs with h2 | h2
      · exact Or.inl (by simp [lexLe, h2])
      · exact Or.inr (by simp [lexLe, h2])
    · exact Or.inr (by simp [lexLe, h])

theorem lexLe_trans : ∀ a b c : List Nat, lexLe a b = true → lexLe b c = true → lexLe a c = true
  | [], _, _, _, _ => rfl
  | _ :: _, [], _, h, _ => by simp [lexLe] at h
  | _ :: _, _ :: _, [], _, h => by simp [lexLe] at h
  | a :: as, b :: bs, c :: cs, hab, hbc => by
    simp only [lexLe, Bool.or_eq_true, Bool.and_eq_true, beq_iff_eq, decide_eq_true_eq] at *
    rcases hab with h1 | ⟨rfl, h1⟩
    · rcases hbc with h2 | ⟨rfl, h2⟩
      · exact Or.inl (Nat.lt_trans h1 h2)
      · exact Or.inl h1
    · rcases hbc with h2 | ⟨rfl, h2⟩
      · exact Or.inl h2
      · exact Or.inr ⟨rfl, lexLe_trans as bs cs h1 h2⟩

theorem lexLe_antisymm : ∀ a b : List Nat, lexLe a b = true → lexLe b a = true → a = b
  | [], [], _, _ => rfl
  | [], _ :: _, _, h => by simp [lexLe] at h
  | _ :: _, [], h, _ => by simp [lexLe] at h
  | a :: as, b :: bs, hab, hba => by
    simp only [lexLe, Bool.or_eq_true, Bool.and_eq_true, beq_iff_eq, decide_eq_true_eq] at hab hba
    rcases hab with h1 | ⟨rfl, h1⟩
    · rcases hba with h2 | ⟨rfl, h2⟩
      · exact absurd h2 (Nat.lt_asymm h1)
      · exact absurd h1 (Nat.lt_irrefl _)
    · rcases hba with h2 | ⟨_, h2⟩
      · exact absurd h2 (Nat.lt_irrefl _)
      · exact congrArg (a :: ·) (lexLe_antisymm as bs h1 h2)

/-- Two lists sorted by a duplicate-free key are equal once they are
permutations of each other. -/
theorem eq_of_perm_of_sortedKeys {α : Type} (key : α → List Nat) {l₁ l₂ : List α}
    (hp : l₁.Perm l₂)
    (hs₁ : List.Pairwise (fun a b => lexLe (key a) (key b) = true) l₁)
    (hs₂ : List.Pairwise (fun a b => lexLe (key a) (key b) = true) l₂)
    (hn : (l₁.map key).Nodup) : l₁ = l₂ := by
  have hn₂ : (l₂.map key).Nodup := hn.perm (hp.map key)
  have hne₁ : List.Pairwise (fun a b => key a ≠ key b) l₁ := List.pairwise_map.mp hn
  have hne₂ : List.Pairwise (fun a b => key a ≠ key b) l₂ := List.pairwise_map.mp hn₂
  letI : IsAntisymm α (fun a b => lexLe (key a) (key b) = true ∧ key a ≠ key b) :=
    ⟨fun a b hab hba => absurd (lexLe_antisymm _ _ hab.1 hba.1) hab.2⟩
  exact List.eq_of_perm_of_sorted hp (hs₁.and hne₁) (hs₂.and hne₂)

theorem sortedEntries_perm (fs : FileSystem) :
    (sortedEntries fs).Perm (includedEntries fs) :=
  List.perm_insertionSort _ _

theorem sortedEntries_pairwise (fs : FileSystem) :
    List.Pairwise (fun a b => lexLe (entryKey a) (entryKey b) = true) (sortedEntries fs) := by
  letI : IsTotal FSEntry (fun a b => entryLe a b = true) :=
    ⟨fun a b => lexLe_total (entryKey a) (entryKey b)⟩
  letI : IsTrans FSEntry (fun a b => entryLe a b = true) :=
    ⟨fun a b c => lexLe_trans (entryKey a) (entryKey b) (entryKey c)⟩
  exact List.sorted_insertionSort (fun a b => entryLe a b = true) (includedEntries fs)

theorem included_canonical (fs : FileSystem) (ha : allReadable fs = true) :
    ∀ e ∈ includedEntries fs, e = ⟨e.parts, .regular, e.content, true⟩ := by
  intro e he
  have h1 := List.mem_filter.mp he
  have hk : e.kind = .regular := by
    have h2 := h1.2
    simp only [entryIncluded, Bool.and_eq_true, beq_iff_eq] at h2
    exact h2.1
  have hrd : e.readable = true := by
    have h3 := List.all_eq_true.mp ha e he
    simpa using h3
  cases e
  simp_all

theorem sortedEntries_keysNodup (fs : FileSystem) (hn : keysNodup fs) :
    ((sortedEntries fs).map entryKey).Nodup :=
  hn.perm ((sortedEntries_perm fs).symm.map _)

theorem find_unreadable_none (fs : FileSystem) (ha : allReadable fs = true) :
    (sortedEntries fs).find? (fun e => !e.readable) = none := by
  apply List.find?_eq_none.mpr
  intro e he
  have hmem : e ∈ includedEntries fs := (sortedEntries_perm fs).subset he
  have h3 := List.all_eq_true.mp ha e hmem
  simp_all

/-- C4: `calculate_bundle_hash` is a function of the set of
(relative path, byte content) pairs of the regular non-symlink files
outside `.git` alone: enumeration order, symlinks, directories, and files
under `.git` never influence the digest. -/
theorem fingerprint_deterministic {δ : Type} (H : List Nat → δ) (fs₁ fs₂ : FileSystem)
    (hr₁ : fs₁.rootExists = true) (hr₂ : fs₂.rootExists = true)
    (ha₁ : allReadable fs₁ = true) (ha₂ : allReadable fs₂ = true)
    (hn₁ : keysNodup fs₁) (hn₂ : keysNodup fs₂)
    (hset : ∀ pr : List String × List Nat, pr ∈ includedPairs fs₁ ↔ pr ∈ includedPairs fs₂) :
    calculate_bundle_hash H fs₁ = calculate_bundle_hash H fs₂ := by
  have hstep : ∀ (ga gb : FileSystem), allReadable ga = true → allReadable gb = true →
      (∀ pr : List String × List Nat, pr ∈ includedPairs ga ↔ pr ∈ includedPairs gb) →
      ∀ e, e ∈ includedEntries ga → e ∈ includedEntries gb := by
    intro ga gb haa hab hs e he
    have hpair : (e.parts, e.content) ∈ includedPairs gb :=
      (hs _).mp (List.mem_map.mpr ⟨e, he, rfl⟩)
    obtain ⟨e', he', heq⟩ := List.mem_map.mp hpair
    have h1 := included_canonical ga haa e he
    have h2 := included_canonical gb hab e' he'
    have hparts : e'.parts = e.parts := congrArg Prod.fst heq
    have hcontent : e'.content = e.content := congrArg Prod.snd heq
    have h4 : e = e' := by rw [h1, h2, hparts, hcontent]
    rwa [h4]
  have hmem : ∀ e, e ∈ includedEntries fs₁ ↔ e ∈ includedEntries fs₂ :=
    fun e => ⟨hstep fs₁ fs₂ ha₁ ha₂ hset e, hstep fs₂ fs₁ ha₂ ha₁ (fun pr => (hset pr).symm) e⟩
  have hndl₁ : (includedEntries fs₁).Nodup := List.Nodup.of_map entryKey hn₁
  have hndl₂ : (includedEntries fs₂).Nodup := List.Nodup.of_map entryKey hn₂
  have hperm : (includedEntries fs₁).Perm (includedEntries fs₂) :=
    (List.perm_ext_iff_of_nodup hndl₁ hndl₂).mpr hmem
  have hsp : (sortedEntries fs₁).Perm (sortedEntries fs₂) :=
    ((sortedEntries_perm fs₁).trans hperm).trans (sortedEntries_perm fs₂).symm
  have heq : sortedEntries fs₁ = sortedEntries fs₂ :=
    eq_of_perm_of_sortedKeys entryKey hsp (sortedEntries_pairwise fs₁)
      (sortedEntries_pairwise fs₂) (sortedEntries_keysNodup fs₁ hn₁)
  simp [calculate_bundle_hash, hr₁, hr₂, find_unreadable_none fs₁ ha₁,
    find_unreadable_none fs₂ ha₂, hashStream, heq]

/-- C4 witness: two trees with the same two files listed in different
enumeration order, one with an extra symlink and a `.git` file, the other
with an extra directory, hash identically. -/
theorem fingerprint_deterministic_witness :
    calculate_bundle_hash (fun l => l)
      ⟨true, [⟨["b"], .regular, [2], true⟩, ⟨["a"], .regular, [1], true⟩,
              ⟨["s"], .symlink, [9], true⟩, ⟨[".git", "x"], .regular, [7], false⟩]⟩ =
    calculate_bundle_hash (fun l => l)
      ⟨true, [⟨["a"], .regular, [1], true⟩, ⟨["d"], .directory, [], true⟩,
              ⟨["b"], .regular, [2], true⟩]⟩ := by
  apply fingerprint_deterministic
  · rfl
  · rfl
  · decide
  · decide
  · unfold keysNodup; decide
  · unfold keysNodup; decide
  · intro pr
    have h1 : includedPairs
        ⟨true, [⟨["b"], .regular, [2], true⟩, ⟨["a"], .regular, [1], true⟩,
                ⟨["s"], .symlink, [9], true⟩, ⟨[".git", "x"], .regular, [7], false⟩]⟩ =
        [(["b"], [2]), (["a"], [1])] := rfl
    have h2 : includedPairs
        ⟨true, [⟨["a"], .regular, [1], true⟩, ⟨["d"], .directory, [], true⟩,
                ⟨["b"], .regular, [2], true⟩]⟩ =
        [(["a"], [1]), (["b"], [2])] := rfl
    rw [h1, h2]
    constructor <;> intro h <;> simp only [List.mem_cons, List.not_mem_nil, or_false] at h ⊢ <;> tauto

theorem mutateEntry_included (p : List String) (c : List Nat) (e : FSEntry) :
    entryIncluded (mutateEntry p c e) = entryIncluded e := by
  unfold mutateEntry entryIncluded
  split <;> rfl

theorem mutateEntry_key (p : List String) (c : List Nat) (e : FSEntry) :
    entryKey (mutateEntry p c e) = entryKey e := by
  unfold mutateEntry entryKey
  split <;> rfl

theorem mutateEntry_readable (p : List String) (c : List Nat) (e : FSEntry) :
    (mutateEntry p c e).readable = e.readable := by
  unfold mutateEntry
  split <;> rfl

theorem includedEntries_mutate (fs : FileSystem) (p : List String) (c : List Nat) :
    includedEntries (mutateContent fs p c) = (includedEntries fs).map (mutateEntry p c) := by
  unfold includedEntries mutateContent
  rw [List.filter_map]
  congr 1
  apply List.filter_congr
  intro e _
  exact congrArg (fun b => b) (by simpa [Function.comp] using mutateEntry_included p c e)

theorem sortedEntries_mutate (fs : FileSystem) (p : List String) (c : List Nat)
    (hn : keysNodup fs) :
    sortedEntries (mutateContent fs p c) = (sortedEntries fs).map (mutateEntry p c) := by
  have hkeys : ∀ l : List FSEntry, (l.map (mutateEntry p c)).map entryKey = l.map entryKey := by
    intro l
    rw [List.map_map]
    apply List.map_congr_left
    intro a _
    exact mutateEntry_key p c a
  apply eq_of_perm_of_sortedKeys entryKey
  · have hp1 : (sortedEntries (mutateContent fs p c)).Perm
        ((includedEntries fs).map (mutateEntry p c)) := by
      rw [← includedEntries_mutate]
      exact sortedEntries_perm _
    exact hp1.trans ((sortedEntries_perm fs).symm.map _)
  · exact sortedEntries_pairwise _
  · rw [List.pairwise_map]
    apply (sortedEntries_pairwise fs).imp
    intro a b h
    rwa [mutateEntry_key, mutateEntry_key]
  · have h1 : ((includedEntries (mutateContent fs p c)).map entryKey).Nodup := by
      rw [includedEntries_mutate, hkeys]
      exact hn
    exact h1.perm ((sortedEntries_perm _).symm.map _)

/-- Mutating the content of one hashed file changes the hash input stream. -/
theorem hashStream_mutate_ne (fs : FileSystem) (tgt : FSEntry) (c : List Nat)
    (hn : keysNodup fs)
    (htgt : tgt ∈ fs.entries)
    (hkind : tgt.kind = .regular)
    (hgit : tgt.parts.contains ".git" = false)
    (hc : c ≠ tgt.content) :
    hashStream (mutateContent fs tgt.parts c) ≠ hashStream fs := by
  have hinc : tgt ∈ includedEntries fs := by
    apply List.mem_filter.mpr
    refine ⟨htgt, ?_⟩
    simp only [entryIncluded, hkind, Bool.and_eq_true, beq_iff_eq, Bool.not_eq_true']
    exact ⟨trivial, hgit⟩
  have hmemS : tgt ∈ sortedEntries fs := ((sortedEntries_perm fs).symm.subset) hinc
  obtain ⟨u, w, hsplit⟩ := List.append_of_mem hmemS
  have hkeysN : ((sortedEntries fs).map entryKey).Nodup := sortedEntries_keysNodup fs hn
  rw [hsplit, List.map_append, List.map_cons] at hkeysN
  obtain ⟨hnu, hncw, hdisj⟩ := List.nodup_append.mp hkeysN
  have hnotw : entryKey tgt ∉ w.map entryKey := (List.nodup_cons.mp hncw).1
  have hnotu : entryKey tgt ∉ u.map entryKey :=
    fun hmem => hdisj hmem (List.mem_cons_self _ _)
  have hfix : ∀ e, entryKey e ≠ entryKey tgt → mutateEntry tgt.parts c e = e := by
    intro e hne
    unfold mutateEntry
    split
    · next hpe =>
      exact absurd (by rw [entryKey, hpe]; rfl) hne
    · rfl
  have hufix : (u.map (mutateEntry tgt.parts c)) = u := by
    have h := List.map_congr_left (l := u) (f := mutateEntry tgt.parts c) (g := id) ?_
    · rw [h, List.map_id]
    · intro a ha
      apply hfix
      intro hkey
      exact hnotu (List.mem_map.mpr ⟨a, ha, hkey⟩)
  have hwfix : (w.map (mutateEntry tgt.parts c)) = w := by
    have h := List.map_congr_left (l := w) (f := mutateEntry tgt.parts c) (g := id) ?_
    · rw [h, List.map_id]
    · intro a ha
      apply hfix
      intro hkey
      exact hnotw (List.mem_map.mpr ⟨a, ha, hkey⟩)
  have htgtmut : mutateEntry tgt.parts c tgt = { tgt with content := c } := by
    unfold mutateEntry
    rw [if_pos rfl]
  have hsorted' : sortedEntries (mutateContent fs tgt.parts c) =
      u ++ ({ tgt with content := c } : FSEntry) :: w := by
    rw [sortedEntries_mutate fs tgt.parts c hn, hsplit, List.map_append, List.map_cons,
      hufix, hwfix, htgtmut]
  intro hEq
  unfold hashStream at hEq
  rw [hsorted', hsplit, List.flatMap_append, List.flatMap_append, List.flatMap_cons,
    List.flatMap_cons] at hEq
  have h1 := List.append_cancel_left hEq
  unfold entryStream at h1
  simp only [List.append_assoc] at h1
  have h2 := List.append_cancel_left h1
  have h3 := List.append_cancel_right h2
  exact hc h3

theorem allReadable_mutate (fs : FileSystem) (p : List String) (c : List Nat) :
    allReadable (mutateContent fs p c) = allReadable fs := by
  unfold allReadable
  rw [includedEntries_mutate, List.all_map]
  congr 1
  funext e
  exact congrArg (fun b => b) (by rw [Function.comp, mutateEntry_readable])

/-- C2: signing then verifying an unchanged tree yields `true`; after
mutating the byte content of any hashed file (a regular non-symlink file
outside `.git`), verification with the old signature yields `false`
(given a collision-free digest function); and `verify_signature` never
throws on a mismatch — it returns an error exactly when, and with exactly
the error that, `calculate_bundle_hash` does. -/
theorem verify_sign_contract {δ : Type} [DecidableEq δ] (H : List Nat → δ)
    (fs : FileSystem) (tgt : FSEntry) (c : List Nat) (userId : String)
    (hroot : fs.rootExists = true)
    (hread : allReadable fs = true)
    (hn : keysNodup fs)
    (htgt : tgt ∈ fs.entries)
    (hkind : tgt.kind = .regular)
    (hgit : tgt.parts.contains ".git" = false)
    (hc : c ≠ tgt.content)
    (hinj : Function.Injective H) :
    create_signature H fs userId = .ok (H (hashStream fs)) ∧
    verify_signature H fs (H (hashStream fs)) = .ok true ∧
    verify_signature H (mutateContent fs tgt.parts c) (H (hashStream fs)) = .ok false ∧
    (∀ (gs : FileSystem) (sig : δ),
      (∀ e, verify_signature H gs sig = .error e ↔ calculate_bundle_hash H gs = .error e) ∧
      (verify_signature H gs sig).isOk = (calculate_bundle_hash H gs).isOk) := by
  have hcalc : calculate_bundle_hash H fs = .ok (H (hashStream fs)) := by
    simp [calculate_bundle_hash, hroot, find_unreadable_none fs hread]
  refine ⟨hcalc, ?_, ?_, ?_⟩
  · simp [verify_signature, hcalc]
  · have hroot' : (mutateContent fs tgt.parts c).rootExists = true := hroot
    have hread' : allReadable (mutateContent fs tgt.parts c) = true := by
      rw [allReadable_mutate]
      exact hread
    have hcalc' : calculate_bundle_hash H (mutateContent fs tgt.parts c) =
        .ok (H (hashStream (mutateContent fs tgt.parts c))) := by
      simp [calculate_bundle_hash, hroot', find_unreadable_none _ hread']
    have hne := hashStream_mutate_ne fs tgt c hn htgt hkind hgit hc
    have hHne : H (hashStream (mutateContent fs tgt.parts c)) ≠ H (hashStream fs) :=
      fun h => hne (hinj h)
    simp [verify_signature, hcalc', hHne]
  · intro gs sig
    rcases hg : calculate_bundle_hash H gs with e | h
    · refine ⟨fun e' => by simp [verify_signature, hg], ?_⟩
      simp only [verify_signature, hg]
      rfl
    · refine ⟨fun e' => by simp [verify_signature, hg], ?_⟩
      simp only [verify_signature, hg]
      rfl

/-- C2 witness: a one-file tree verifies against its own signature and,
after mutating that file's content, fails against the old signature. -/
theorem verify_sign_contract_witness :
    verify_signature (fun l => l) ⟨true, [⟨["a"], .regular, [0], true⟩]⟩
      (hashStream ⟨true, [⟨["a"], .regular, [0], true⟩]⟩) = .ok true ∧
    verify_signature (fun l => l)
      (mutateContent ⟨true, [⟨["a"], .regular, [0], true⟩]⟩ ["a"] [1])
      (hashStream ⟨true, [⟨["a"], .regular, [0], true⟩]⟩) = .ok false := by
  have h := verify_sign_contract (fun l : List Nat => l)
    ⟨true, [⟨["a"], .regular, [0], true⟩]⟩ ⟨["a"], .regular, [0], true⟩ [1] "sre-user"
    rfl (by decide) (by unfold keysNodup; decide) (by decide) rfl (by decide) (by decide)
    Function.injective_id
  exact ⟨h.2.1, h.2.2.1⟩

/-- C3, counterexample: `calculate_next_version` strips every leading `'v'`
(Python `lstrip`), so `"vv1.2.3"` does not raise; `int` accepts negative
components, so `"1.2.-3"` does not raise; and the empty string is falsy, so
`""` yields `v0.1.0` instead of raising.  Each contradicts the claim that
every string other than a single-`'v'`-prefixed `M.m.p` of non-negative
integers raises a validation error. -/
theorem next_version_counterexample :
    calculate_next_version (some "vv1.2.3") .major = .ok "v2.0.0" ∧
    calculate_next_version (some "1.2.-3") .patch = .ok "v1.2.-2" ∧
    calculate_next_version (some "") .patch = .ok "v0.1.0" :=
  ⟨rfl, rfl, rfl⟩

/-- C3, amended: `calculate_next_version` maps `none` and `""` to `v0.1.0`
regardless of bump kind; otherwise it strips all leading `'v'` characters,
splits on `'.'`, and requires exactly three components each accepted by
Python's `int` (sign and underscores allowed, so negative components are
accepted), returning `v(M+1).0.0` / `vM.(m+1).0` / `vM.m.(p+1)`; every
other shape (e.g. `"abc"`, `"1.2"`) yields a validation error. -/
theorem next_version_amended :
    (∀ bt, calculate_next_version none bt = .ok "v0.1.0" ∧
           calculate_next_version (some "") bt = .ok "v0.1.0") ∧
    (∀ (s x y z : String) (a b c : Int),
      s ≠ "" →
      pySplitDot (String.mk (s.data.dropWhile (· = 'v'))) = [x, y, z] →
      pyInt x = some a → pyInt y = some b → pyInt z = some c →
      calculate_next_version (some s) .major = .ok (renderVersion (a + 1) 0 0) ∧
      calculate_next_version (some s) .minor = .ok (renderVersion a (b + 1) 0) ∧
      calculate_next_version (some s) .patch = .ok (renderVersion a b (c + 1))) ∧
    (∀ (s : String) (bt : BumpType),
      s ≠ "" →
      unpack3 ((pySplitDot (String.mk (s.data.dropWhile (· = 'v')))).mapM pyInt) = none →
      calculate_next_version (some s) bt = .error ("Invalid version format: " ++ s)) ∧
    (calculate_next_version (some "v1.2.3") .patch = .ok "v1.2.4" ∧
     calculate_next_version (some "v1.2.3") .minor = .ok "v1.3.0" ∧
     calculate_next_version (some "1.2.3") .major = .ok "v2.0.0" ∧
     (∃ e, calculate_next_version (some "abc") .patch = .error e) ∧
     (∃ e, calculate_next_version (some "1.2") .patch = .error e)) := by
  refine ⟨fun bt => ⟨rfl, rfl⟩, ?_, ?_, rfl, rfl, rfl, ⟨_, rfl⟩, ⟨_, rfl⟩⟩
  · intro s x y z a b c hs hsplit hx hy hz
    simp only [calculate_next_version, if_neg hs, hsplit]
    simp [List.mapM.loop, hx, hy, hz, unpack3]
  · intro s bt hs hnone
    simp only [calculate_next_version, if_neg hs, hnone]

theorem verify_ready_ok_iff (st : LfsState) :
    verify_ready st = .ok () ↔
      (st.installed = true ∧ st.initialized = true ∧ st.hookExists = true ∧
       (pyContains "git-lfs" st.hookContent = true ∨
        pyContains "git lfs" st.hookContent = true) ∧
       st.hookExecutable = true) := by
  obtain ⟨i, ini, he, hc, hx⟩ := st
  simp only [verify_ready]
  cases i <;> cases ini <;> cases he <;> cases hx <;>
    cases hb : (pyContains "git-lfs" hc || pyContains "git lfs" hc) <;>
    simp_all

/-- C1: evaluated at a Finalize run whose collaborators all succeed,
`finalize_release` performs `verify`, `merge`, `tag`, `approve` — the audit
sink is never called between `verify` and `merge` (or at all), contrary to
the specified `verify → audit → merge → tag → approve` contract and to the
repository's own tests; the abort-on-failed-verification half of the claim
does hold (a `false` verification yields the `ValueError` with no
subsequent call). -/
theorem finalize_trace_no_audit :
    finalize_release true (some "v1.0.0") = ([.verify, .merge, .tag, .approve], .ok ()) ∧
    FinEvent.audit ∉ (finalize_release true (some "v1.0.0")).1 ∧
    (∀ v, finalize_release false v = ([.verify], .error "Signature verification failed.")) :=
  ⟨rfl, by decide, fun v => rfl⟩

/-- C5: when `verify_ready` fails, `propose_release` aborts with that error
and `push`, `create_merge_request` and `submit_for_review` are never
called; when merge-request creation fails, `submit_for_review` (and the
cross-reference comment) are never called; and `verify_ready` fails
exactly when the tool is not installed, not initialized, or the pre-push
hook is missing, not git-lfs-invoking, or not executable. -/
theorem propose_failfast (lfs : LfsState) (mr : Except String Nat) :
    (∀ e, verify_ready lfs = .error e →
      propose_release lfs mr =
        ([.fetchReport, .checkoutBranch, .updateFiles, .bundle, .sign, .addAll, .commit,
          .verifyLfs], .error e) ∧
      PropEvent.push ∉ (propose_release lfs mr).1 ∧
      PropEvent.createMR ∉ (propose_release lfs mr).1 ∧
      PropEvent.submitForReview ∉ (propose_release lfs mr).1) ∧
    (∀ e, mr = .error e →
      PropEvent.submitForReview ∉ (propose_release lfs mr).1 ∧
      PropEvent.postComment ∉ (propose_release lfs mr).1) ∧
    (¬(lfs.installed = true ∧ lfs.initialized = true ∧ lfs.hookExists = true ∧
        (pyContains "git-lfs" lfs.hookContent = true ∨
         pyContains "git lfs" lfs.hookContent = true) ∧
        lfs.hookExecutable = true) →
      ∃ e, verify_ready lfs = .error e) := by
  refine ⟨?_, ?_, ?_⟩
  · intro e he
    simp only [propose_release, he]
    refine ⟨rfl, ?_, ?_, ?_⟩ <;> decide
  · intro e he
    rcases hv : verify_ready lfs with e' | u
    · simp only [propose_release, hv]
      constructor <;> decide
    · simp only [propose_release, hv, he]
      constructor <;> decide
  · intro hcond
    rcases hv : verify_ready lfs with e | u
    · exact ⟨e, rfl⟩
    · cases u
      exact absurd ((verify_ready_ok_iff lfs).mp hv) hcond

/-- C5 witness: a not-installed LFS state aborts the proposal before
`push`, and a failing merge-request creation blocks `submit_for_review`. -/
theorem propose_failfast_witness :
    propose_release ⟨false, true, true, "", true⟩ (.ok 1) =
      ([.fetchReport, .checkoutBranch, .updateFiles, .bundle, .sign, .addAll, .commit,
        .verifyLfs], .error "Git LFS is not installed on the system.") ∧
    PropEvent.push ∉ (propose_release ⟨false, true, true, "", true⟩ (.ok 1)).1 ∧
    PropEvent.submitForReview ∉
      (propose_release ⟨true, true, true, "echo git-lfs", true⟩
        (.error "MR API failure")).1 := by
  have h1 := (propose_failfast ⟨false, true, true, "", true⟩ (.ok 1)).1
    "Git LFS is not installed on the system." rfl
  have h2 := (propose_failfast ⟨true, true, true, "echo git-lfs", true⟩
    (.error "MR API failure")).2.1 "MR API failure" rfl
  exact ⟨h1.1, h1.2.1, h2.1⟩

theorem handleRemoteStorage_append (th : Nat) (xs ys : List RSFile) :
    handleRemoteStorage th (xs ++ ys) =
      match handleRemoteStorage th xs with
      | .error e => .error e
      | .ok a =>
        match handleRemoteStorage th ys with
        | .error e => .error e
        | .ok b => .ok (a ++ b) := by
  induction xs with
  | nil =>
    simp only [List.nil_append, handleRemoteStorage]
    cases handleRemoteStorage th ys <;> rfl
  | cons f fs ih =>
    simp only [List.cons_append, handleRemoteStorage]
    cases rsStep th f with
    | error e => rfl
    | ok o =>
      show (match handleRemoteStorage th (fs ++ ys) with
        | Except.error e => (Except.error e : Except Unit (List RSOutcome))
        | Except.ok os => Except.ok (o :: os)) = _
      rw [ih]
      cases handleRemoteStorage th fs <;> cases handleRemoteStorage th ys <;> rfl

theorem rsStep_statFailed (th : Nat) (f : RSFile)
    (hk : f.kind = .regular) (hg : f.parts.contains ".git" = false)
    (hs : f.statSize = .error ()) :
    rsStep th f = .ok .statFailed := by
  have hgm : ".git" ∉ f.parts := by simpa using hg
  simp [rsStep, hk, hgm, hs]

/-- C7, amended: a failure raised inside the per-file block is fatal only
when it is not an `OSError`: a `stat` failure (`OSError`) is logged and the
file skipped with the scan continuing, a non-`OSError` from `upload`
aborts the entire bundling operation, while an `OSError` from `upload` (or
the pointer write) is caught by the same per-file handler and the scan
continues. -/
theorem remote_storage_error_handling (th : Nat) (f : RSFile) (l₁ l₂ : List RSFile)
    (o₁ o₂ : List RSOutcome)
    (h₁ : handleRemoteStorage th l₁ = .ok o₁)
    (h₂ : handleRemoteStorage th l₂ = .ok o₂) :
    (f.kind = .regular → f.parts.contains ".git" = false → f.statSize = .error () →
      handleRemoteStorage th (l₁ ++ f :: l₂) = .ok (o₁ ++ .statFailed :: o₂)) ∧
    (∀ s, f.kind = .regular → f.parts.contains ".git" = false → f.statSize = .ok s →
      s > th → f.uploadResult = .error .appErr →
      handleRemoteStorage th (l₁ ++ f :: l₂) = .error ()) := by
  constructor
  · intro hk hg hs
    rw [handleRemoteStorage_append, h₁]
    show (match handleRemoteStorage th (f :: l₂) with
      | .error e => (.error e : Except Unit (List RSOutcome))
      | .ok b => .ok (o₁ ++ b)) = .ok (o₁ ++ .statFailed :: o₂)
    rw [show handleRemoteStorage th (f :: l₂) = .ok (.statFailed :: o₂) from by
      simp only [handleRemoteStorage, rsStep_statFailed th f hk hg hs, h₂]]
  · intro s hk hg hs hgt hup
    rw [handleRemoteStorage_append, h₁]
    show (match handleRemoteStorage th (f :: l₂) with
      | .error e => (.error e : Except Unit (List RSOutcome))
      | .ok b => .ok (o₁ ++ b)) = .error ()
    rw [show handleRemoteStorage th (f :: l₂) = .error () from by
      simp only [handleRemoteStorage]
      rw [show rsStep th f = .error () from by
        have hgm : ".git" ∉ f.parts := by simpa using hg
        simp [rsStep, hk, hgm, hs, hgt, hup]]]

/-- C7, counterexample: an `OSError` raised by the uploader's `upload` is
caught by the per-file `except OSError` handler, so it is not fatal and
does not abort bundling, contrary to the claim that every failure raised
by `upload` aborts the operation. -/
theorem remote_storage_oserror_counterexample :
    handleRemoteStorage 10 [⟨["big.bin"], .regular, .ok 11, .error .osErr, true⟩] =
      .ok [.uploadSkipped] ∧
    (∀ e, handleRemoteStorage 10 [⟨["big.bin"], .regular, .ok 11, .error .osErr, true⟩] ≠
      .error e) :=
  ⟨rfl, fun e => by cases e; decide⟩

/-- C7 witness: a three-file scan where the middle file's `stat` raises
continues to offload the third file; a non-`OSError` upload failure in the
middle aborts the whole scan. -/
theorem remote_storage_error_handling_witness :
    handleRemoteStorage 5
      [⟨["ok.txt"], .regular, .ok 3, .ok "h0", true⟩,
       ⟨["bad.txt"], .regular, .error (), .ok "h1", true⟩,
       ⟨["huge.bin"], .regular, .ok 9, .ok "h2", true⟩] =
      .ok [.small, .statFailed, .replaced "pointer:h2\n"] ∧
    handleRemoteStorage 5
      [⟨["ok.txt"], .regular, .ok 3, .ok "h0", true⟩,
       ⟨["fatal.bin"], .regular, .ok 9, .error .appErr, true⟩,
       ⟨["huge.bin"], .regular, .ok 9, .ok "h2", true⟩] = .error () := by
  constructor
  · exact (remote_storage_error_handling 5 ⟨["bad.txt"], .regular, .error (), .ok "h1", true⟩
      [⟨["ok.txt"], .regular, .ok 3, .ok "h0", true⟩]
      [⟨["huge.bin"], .regular, .ok 9, .ok "h2", true⟩]
      [.small] [.replaced "pointer:h2\n"] rfl rfl).1 rfl rfl rfl
  · exact (remote_storage_error_handling 5 ⟨["fatal.bin"], .regular, .ok 9, .error .appErr, true⟩
      [⟨["ok.txt"], .regular, .ok 3, .ok "h0", true⟩]
      [⟨["huge.bin"], .regular, .ok 9, .ok "h2", true⟩]
      [.small] [.replaced "pointer:h2\n"] rfl rfl).2 9 rfl rfl rfl (by decide) rfl

/-- C6: a file whose size equals the threshold is neither offloaded by
`_handle_remote_storage` nor reported by `find_large_files` (membership in
the report is exactly strict excess over the threshold), while a file one
byte over is offloaded (given a successful upload and write) and
reported. -/
theorem threshold_boundary (th : Nat) (f : RSFile) (l₁ l₂ : List RSFile)
    (o₁ o₂ : List RSOutcome) (rootP : Bool) (files : List RSFile)
    (hk : f.kind = .regular) (hg : f.parts.contains ".git" = false)
    (h₁ : handleRemoteStorage th l₁ = .ok o₁) (h₂ : handleRemoteStorage th l₂ = .ok o₂) :
    (f.statSize = .ok th →
      handleRemoteStorage th (l₁ ++ f :: l₂) = .ok (o₁ ++ .small :: o₂)) ∧
    (∀ h, f.statSize = .ok (th + 1) → f.uploadResult = .ok h → f.writeOk = true →
      handleRemoteStorage th (l₁ ++ f :: l₂) =
        .ok (o₁ ++ .replaced ("pointer:" ++ h ++ "\n") :: o₂)) ∧
    (∀ p, p ∈ findLargeFiles rootP th files ↔
      (rootP = true ∧ ∃ g ∈ files, g.kind = .regular ∧ g.parts.contains ".git" = false ∧
        (∃ s, g.statSize = .ok s ∧ s > th) ∧ p = joinSlash g.parts)) ∧
    (f.statSize = .ok th → f ∈ files →
      (∀ g ∈ files, joinSlash g.parts = joinSlash f.parts → g = f) →
      joinSlash f.parts ∉ findLargeFiles rootP th files) ∧
    (f.statSize = .ok (th + 1) → f ∈ files → rootP = true →
      joinSlash f.parts ∈ findLargeFiles rootP th files) := by
  have hgm : ".git" ∉ f.parts := by simpa using hg
  have hmemiff : ∀ p, p ∈ findLargeFiles rootP th files ↔
      (rootP = true ∧ ∃ g ∈ files, g.kind = .regular ∧ g.parts.contains ".git" = false ∧
        (∃ s, g.statSize = .ok s ∧ s > th) ∧ p = joinSlash g.parts) := by
    intro p
    cases rootP with
    | false => simp [findLargeFiles]
    | true =>
      simp only [findLargeFiles, Bool.not_true, Bool.false_eq_true, if_false,
        List.mem_filterMap, eq_self_iff_true, true_and]
      constructor
      · rintro ⟨g, hgmem, hsome⟩
        rcases hcond : (g.kind == EntryKind.regular && !(g.parts.contains ".git")) with hF | hT
        · rw [hcond] at hsome
          simp at hsome
        · rw [hcond] at hsome
          simp only [if_true] at hsome
          rcases hstat : g.statSize with u | s
          · rw [hstat] at hsome
            simp at hsome
          · rw [hstat] at hsome
            by_cases hs : s > th
            · simp only [hs, if_true, Option.some.injEq] at hsome
              simp only [Bool.and_eq_true, beq_iff_eq, Bool.not_eq_true'] at hcond
              exact ⟨g, hgmem, hcond.1, hcond.2, ⟨s, hstat, hs⟩, hsome.symm⟩
            · simp [hs] at hsome
      · rintro ⟨g, hgmem, hk', hg', ⟨s, hstat, hs⟩, hp⟩
        refine ⟨g, hgmem, ?_⟩
        have hgm' : ".git" ∉ g.parts := by simpa using hg'
        simp [hk', hgm', hstat, hs, hp]
  refine ⟨?_, ?_, hmemiff, ?_, ?_⟩
  · intro hs
    rw [handleRemoteStorage_append, h₁]
    show (match handleRemoteStorage th (f :: l₂) with
      | Except.error e => (Except.error e : Except Unit (List RSOutcome))
      | Except.ok b => Except.ok (o₁ ++ b)) = .ok (o₁ ++ .small :: o₂)
    rw [show handleRemoteStorage th (f :: l₂) = .ok (.small :: o₂) from by
      simp only [handleRemoteStorage]
      rw [show rsStep th f = .ok .small from by
        simp [rsStep, hk, hgm, hs], h₂]]
  · intro h hs hup hw
    rw [handleRemoteStorage_append, h₁]
    show (match handleRemoteStorage th (f :: l₂) with
      | Except.error e => (Except.error e : Except Unit (List RSOutcome))
      | Except.ok b => Except.ok (o₁ ++ b)) =
        .ok (o₁ ++ .replaced ("pointer:" ++ h ++ "\n") :: o₂)
    rw [show handleRemoteStorage th (f :: l₂) =
        .ok (.replaced ("pointer:" ++ h ++ "\n") :: o₂) from by
      simp only [handleRemoteStorage]
      rw [show rsStep th f = .ok (.replaced ("pointer:" ++ h ++ "\n")) from by
        simp [rsStep, hk, hgm, hs, hup, hw], h₂]]
  · intro hs hfmem huniq hin
    rcases (hmemiff _).mp hin with ⟨_, g, hgmem, _, _, ⟨s, hstat, hsgt⟩, hpeq⟩
    have hgf : g = f := huniq g hgmem hpeq.symm
    rw [hgf, hs] at hstat
    have : s = th := (Except.ok.inj hstat).symm
    rw [this] at hsgt
    exact Nat.lt_irrefl th hsgt
  · intro hs hfmem hroot
    exact (hmemiff _).mpr ⟨hroot, f, hfmem, hk, hg, ⟨th + 1, hs, Nat.lt_succ_self th⟩, rfl⟩

/-- C6 witness: at threshold 100, a 100-byte file is left alone and not
reported, a 101-byte file is replaced by a pointer and reported. -/
theorem threshold_boundary_witness :
    handleRemoteStorage 100
      [⟨["exact.bin"], .regular, .ok 100, .ok "hx", true⟩] = .ok [.small] ∧
    handleRemoteStorage 100
      [⟨["over.bin"], .regular, .ok 101, .ok "hx", true⟩] =
      .ok [.replaced "pointer:hx\n"] ∧
    joinSlash ["exact.bin"] ∉
      findLargeFiles true 100 [⟨["exact.bin"], .regular, .ok 100, .ok "hx", true⟩] ∧
    joinSlash ["over.bin"] ∈
      findLargeFiles true 100 [⟨["over.bin"], .regular, .ok 101, .ok "hx", true⟩] := by
  have h1 := threshold_boundary 100 ⟨["exact.bin"], .regular, .ok 100, .ok "hx", true⟩
    [] [] [] [] true [⟨["exact.bin"], .regular, .ok 100, .ok "hx", true⟩] rfl rfl rfl rfl
  have h2 := threshold_boundary 100 ⟨["over.bin"], .regular, .ok 101, .ok "hx", true⟩
    [] [] [] [] true [⟨["over.bin"], .regular, .ok 101, .ok "hx", true⟩] rfl rfl rfl rfl
  refine ⟨h1.1 rfl, h2.2.1 "hx" rfl rfl rfl, ?_, ?_⟩
  · exact h1.2.2.2.1 rfl (by decide) (by decide)
  · exact h2.2.2.2.2 rfl (by decide) rfl

theorem eligible_not_models (f : MvFile) (h : moveEligible f = true) :
    "models" ∉ f.parts := by
  simp [moveEligible] at h
  exact h.1.2.1.2

theorem eligible_parts_ne_destParts (f : MvFile) (h : moveEligible f = true)
    (g : MvFile) : f.parts ≠ destParts g := by
  intro hEq
  apply eligible_not_models f h
  rw [hEq]
  exact List.mem_cons_self _ _

theorem fold_moveOne_preserves_absent (L : List MvFile) (p : List String) :
    ∀ acc : List MvFile, (∀ g ∈ acc, g.parts ≠ p) → (∀ src ∈ L, destParts src ≠ p) →
    ∀ g ∈ L.foldl moveOne acc, g.parts ≠ p := by
  induction L with
  | nil => intro acc h1 _ g hg; exact h1 g hg
  | cons src L' ih =>
    intro acc h1 h2 g hg
    refine ih (moveOne acc src) ?_ (fun s hs => h2 s (List.mem_cons_of_mem _ hs)) g hg
    intro g' hg'
    rcases List.mem_append.mp hg' with hmem | hmem
    · exact h1 g' (List.mem_filter.mp hmem).1
    · rw [List.mem_singleton.mp hmem]
      exact h2 src (List.mem_cons_self _ _)

theorem fold_moveOne_keeps (L : List MvFile) (d : MvFile) :
    ∀ acc : List MvFile, d ∈ acc →
    (∀ src ∈ L, src.parts ≠ d.parts ∧ destParts src ≠ d.parts) →
    d ∈ L.foldl moveOne acc := by
  induction L with
  | nil => intro acc hd _; exact hd
  | cons src L' ih =>
    intro acc hd hsrc
    refine ih (moveOne acc src) ?_ (fun s hs => hsrc s (List.mem_cons_of_mem _ hs))
    apply List.mem_append.mpr
    left
    apply List.mem_filter.mpr
    refine ⟨hd, ?_⟩
    have h := hsrc src (List.mem_cons_self _ _)
    simp only [Bool.and_eq_true, Bool.not_eq_true', beq_eq_false_iff_ne, ne_eq]
    exact ⟨fun hEq => h.1 (by rw [hEq]), fun hEq => h.2 (by rw [hEq])⟩

/-- C9, amended: every regular non-symlink file none of whose relative
path parts is `.git`, `models`, or `tests` (the code excludes any `models`
or `tests` directory component at any depth, not just the destination and
test-data subpaths), matching the fixed filename set or extension set, is
moved to `models/distilled/` — the original path disappears and the
destination holds the file's content (overwriting any previous entry; when
several matches share a filename the last scanned wins, so uniqueness of
the name among matches pins the content). -/
theorem move_model_artifacts_moves (files : List MvFile) (f : MvFile)
    (hmem : f ∈ files)
    (helig : moveEligible f = true)
    (hnodup : (files.map (fun g => g.parts)).Nodup)
    (huniq : ∀ g ∈ filesToMove files, pyName g.parts = pyName f.parts → g = f) :
    (∀ g ∈ moveModelArtifacts files, g.parts ≠ f.parts) ∧
    (⟨destParts f, .regular, f.content⟩ : MvFile) ∈ moveModelArtifacts files := by
  have hfL : f ∈ filesToMove files := List.mem_filter.mpr ⟨hmem, helig⟩
  obtain ⟨L₁, L₂, hsplit⟩ := List.append_of_mem hfL
  have hLnodup : ((filesToMove files).map (fun g => g.parts)).Nodup := by
    have hsub : (filesToMove files).Sublist files := List.filter_sublist files
    exact List.Nodup.sublist (hsub.map _) hnodup
  have hLelig : ∀ g ∈ filesToMove files, moveEligible g = true :=
    fun g hg => (List.mem_filter.mp hg).2
  have hL2 : ∀ src ∈ L₂, src ∈ filesToMove files := by
    intro src hs
    rw [hsplit]
    exact List.mem_append.mpr (Or.inr (List.mem_cons_of_mem _ hs))
  have hL2ne : ∀ src ∈ L₂, src ≠ f := by
    intro src hs hEq
    rw [hsplit] at hLnodup
    simp only [List.map_append, List.map_cons, List.nodup_append, List.nodup_cons] at hLnodup
    exact hLnodup.2.1.1 (List.mem_map.mpr ⟨src, hs, by rw [hEq]⟩)
  have hfold : moveModelArtifacts files =
      L₂.foldl moveOne (moveOne (L₁.foldl moveOne files) f) := by
    rw [moveModelArtifacts, hsplit, List.foldl_append, List.foldl_cons]
  constructor
  · rw [hfold]
    apply fold_moveOne_preserves_absent
    · intro g hg
      rcases List.mem_append.mp hg with hmem' | hmem'
      · have h := (List.mem_filter.mp hmem').2
        simp only [Bool.and_eq_true, Bool.not_eq_true', beq_eq_false_iff_ne, ne_eq] at h
        exact h.1
      · rw [List.mem_singleton.mp hmem']
        exact (eligible_parts_ne_destParts f helig f).symm
    · intro src hs
      exact fun hEq => eligible_not_models f helig (by rw [← hEq]; exact List.mem_cons_self _ _)
  · rw [hfold]
    apply fold_moveOne_keeps
    · apply List.mem_append.mpr
      right
      exact List.mem_singleton.mpr rfl
    · intro src hs
      constructor
      · exact eligible_parts_ne_destParts src (hLelig src (hL2 src hs)) f
      · intro hEq
        have hname : pyName src.parts = pyName f.parts := by
          have h3 := congrArg (fun l => l.getLast?) hEq
          simpa [destParts] using h3
        exact hL2ne src hs (huniq src (hL2 src hs) hname)

/-- C9, counterexample: `models/raw/w.pt` is a regular file outside
`.git`, outside the destination subpath `models/distilled/`, and outside
the test-data subpath, with extension in the fixed set, yet
`_move_model_artifacts` does not move it, because the scan skips every
path containing a `models` component at any depth. -/
theorem move_model_artifacts_counterexample :
    pySuffix (pyName ["models", "raw", "w.pt"]) = ".pt" ∧
    ["models", "raw", "w.pt"].take 2 ≠ ["models", "distilled"] ∧
    ".git" ∉ ["models", "raw", "w.pt"] ∧ "tests" ∉ ["models", "raw", "w.pt"] ∧
    moveModelArtifacts [⟨["models", "raw", "w.pt"], .regular, [5]⟩] =
      [⟨["models", "raw", "w.pt"], .regular, [5]⟩] ∧
    (∀ g ∈ moveModelArtifacts [⟨["models", "raw", "w.pt"], .regular, [5]⟩],
      g.parts ≠ ["models", "distilled", "w.pt"]) := by
  decide

/-- C9 witness: a matching file `w.pt` at the workspace root is moved to
`models/distilled/w.pt`. -/
theorem move_model_artifacts_witness :
    (∀ g ∈ moveModelArtifacts [⟨["w.pt"], .regular, [5]⟩], g.parts ≠ ["w.pt"]) ∧
    (⟨["models", "distilled", "w.pt"], .regular, [5]⟩ : MvFile) ∈
      moveModelArtifacts [⟨["w.pt"], .regular, [5]⟩] := by
  have h := move_model_artifacts_moves [⟨["w.pt"], .regular, [5]⟩]
    ⟨["w.pt"], .regular, [5]⟩ (by decide) (by decide) (by decide)
    (fun g hg _ => by
      have h1 : filesToMove [(⟨["w.pt"], .regular, [5]⟩ : MvFile)] =
          [⟨["w.pt"], .regular, [5]⟩] := rfl
      rw [h1] at hg
      exact List.mem_singleton.mp hg)
  exact ⟨h.1, h.2⟩

theorem splitLinesAux_nonbreak (c : Char) (cs acc : List Char)
    (hc : isLineBreak c = false) :
    splitLinesAux false (c :: cs) acc = splitLinesAux false cs (c :: acc) := by
  have hcr : ¬ c = '\x0d' := by
    intro h
    rw [h] at hc
    exact absurd hc (by decide)
  simp only [splitLinesAux]
  rw [if_neg (by simp), if_neg hcr, if_neg (by simp [hc])]

theorem splitLinesAux_newline (cs acc : List Char) :
    splitLinesAux false ('\n' :: cs) acc =
      String.mk acc.reverse :: splitLinesAux false cs [] := by
  simp only [splitLinesAux]
  rw [if_neg (by simp), if_neg (by decide), if_pos (by decide)]

theorem splitLinesAux_break (l : List Char) :
    ∀ (rest acc : List Char), (∀ c ∈ l, isLineBreak c = false) →
    splitLinesAux false (l ++ '\n' :: rest) acc =
      String.mk (acc.reverse ++ l) :: splitLinesAux false rest [] := by
  induction l with
  | nil =>
    intro rest acc _
    rw [List.nil_append, splitLinesAux_newline]
    simp
  | cons c l' ih =>
    intro rest acc hl
    rw [List.cons_append, splitLinesAux_nonbreak c _ acc (hl c (List.mem_cons_self _ _)),
      ih rest (c :: acc) (fun x hx => hl x (List.mem_cons_of_mem _ hx))]
    congr 1
    simp

theorem pySplitlines_join (lines : List String) :
    lines ≠ [] →
    (∀ l ∈ lines, ∀ c ∈ l.data, isLineBreak c = false) →
    pySplitlines (joinLF lines ++ "\n") = lines := by
  induction lines with
  | nil => intro h _; exact absurd rfl h
  | cons l rest ih =>
    intro _ hok
    cases rest with
    | nil =>
      show pySplitlines (l ++ "\n") = [l]
      unfold pySplitlines
      have hdata : (l ++ "\n").data = l.data ++ '\n' :: [] := by
        rw [String.data_append]
      rw [hdata, splitLinesAux_break l.data [] [] (hok l (List.mem_cons_self _ _))]
      show [String.mk ([].reverse ++ l.data)] = [l]
      simp
    | cons l2 ls =>
      have hrec := ih (by simp) (fun x hx c hc => hok x (List.mem_cons_of_mem _ hx) c hc)
      show pySplitlines (l ++ "\n" ++ joinLF (l2 :: ls) ++ "\n") = l :: l2 :: ls
      unfold pySplitlines
      have hdata : (l ++ "\n" ++ joinLF (l2 :: ls) ++ "\n").data =
          l.data ++ '\n' :: (joinLF (l2 :: ls) ++ "\n").data := by
        rw [String.data_append, String.data_append, String.data_append]
        simp
      rw [hdata, splitLinesAux_break l.data _ [] (hok l (List.mem_cons_self _ _))]
      rw [show splitLinesAux false (joinLF (l2 :: ls) ++ "\n").data [] =
        pySplitlines (joinLF (l2 :: ls) ++ "\n") from rfl, hrec]
      simp

theorem takeDrop_heading (pre post : List String) (h : String)
    (hpre : ∀ l ∈ pre, startsHeading l = false) (hh : startsHeading h = true) :
    (pre ++ h :: post).takeWhile (fun l => !startsHeading l) = pre ∧
    (pre ++ h :: post).dropWhile (fun l => !startsHeading l) = h :: post := by
  induction pre with
  | nil =>
    simp [List.takeWhile, List.dropWhile, hh]
  | cons x xs ih =>
    have hx := hpre x (List.mem_cons_self _ _)
    have hrec := ih (fun l hl => hpre l (List.mem_cons_of_mem _ hl))
    constructor
    · rw [List.cons_append, List.takeWhile_cons]
      simp [hx, hrec.1]
    · rw [List.cons_append, List.dropWhile_cons]
      simp [hx, hrec.2]

theorem heading_hasNonWs (h : String) (hh : startsHeading h = true) :
    hasNonWs h = true := by
  unfold startsHeading at hh
  unfold hasNonWs
  cases hd : h.data with
  | nil => rw [hd] at hh; exact absurd hh (by decide)
  | cons c cs =>
    rw [hd] at hh
    have hc : c = '#' := by
      have h1 : ('#' == c && startsList ['#', ' ', '['] cs) = true := hh
      have h2 := (Bool.and_eq_true _ _).mp h1
      exact (beq_iff_eq.mp h2.1).symm
    rw [List.any_cons, hc]
    simp [isPyWs]

/-- C8, amended: for an existing change-log whose decoded text is a
sequence of `\n`-terminated lines free of carriage returns and other
line-break controls, the rewrite inserts the new dated section (plus one
blank separator line) immediately before the first `## [` heading line,
or appends a blank line and the section at the end when no heading
exists, leaving every pre-existing line unchanged and in order; the
counterexample shows the byte-for-byte framing claim fails for CRLF
files, whose prior bytes are rewritten. -/
theorem update_changelog_frame (v d : String) :
    (∀ (pre post : List String) (h : String),
      (∀ l ∈ pre ++ h :: post, ∀ c ∈ l.data, isLineBreak c = false) →
      (∀ l ∈ pre, startsHeading l = false) →
      startsHeading h = true →
      updateChangelogContent v d (joinLF (pre ++ h :: post) ++ "\n") =
        joinLF (pre ++ changelogEntry v d :: "" :: h :: post) ++ "\n") ∧
    (∀ lines : List String, lines ≠ [] →
      (∀ l ∈ lines, ∀ c ∈ l.data, isLineBreak c = false) →
      (∀ l ∈ lines, startsHeading l = false) →
      updateChangelogContent v d (joinLF lines ++ "\n") =
        joinLF (lines ++ ["", changelogEntry v d]) ++ "\n") := by
  constructor
  · intro pre post h hok hpre hh
    unfold updateChangelogContent
    rw [pySplitlines_join (pre ++ h :: post) (by simp) hok]
    rw [(takeDrop_heading pre post h hpre hh).1, (takeDrop_heading pre post h hpre hh).2]
    simp only [heading_hasNonWs h hh, if_true]
  · intro lines hne hok hnone
    unfold updateChangelogContent
    rw [pySplitlines_join lines hne hok]
    have hdrop : lines.dropWhile (fun l => !startsHeading l) = [] := by
      apply List.dropWhile_eq_nil_iff.mpr
      intro x hx
      simp [hnone x hx]
    rw [hdrop]

set_option maxRecDepth 8192 in
/-- C8, counterexample: on a CRLF change-log, `splitlines` plus
`"\n".join` rewrites the line endings of the prior entries, so the
pre-existing bytes do not survive (the original text is not even a
contiguous substring of the result), contrary to the claim that every
byte of the prior content is left unchanged. -/
theorem update_changelog_counterexample :
    updateChangelogContent "v0.2.0" "2024-02-02" "## [0.1.0] - 2024-01-01\r\nold\r\n" =
      "## [0.2.0] - 2024-02-02\n\n- No changes documented.\n\n\n## [0.1.0] - 2024-01-01\nold\n" ∧
    ¬ (("## [0.1.0] - 2024-01-01\r\nold\r\n").data <:+:
       (updateChangelogContent "v0.2.0" "2024-02-02"
         "## [0.1.0] - 2024-01-01\r\nold\r\n").data) := by
  exact ⟨by decide, by decide⟩

/-- C8 witness: the amended theorem applied to an LF change-log with one
prior section (insertion before its heading) and to one with no heading
(append). -/
theorem update_changelog_frame_witness :
    updateChangelogContent "v1.1.0" "2024-03-03"
      (joinLF ["# Changelog", "", "## [1.0.0] - 2024-01-01", "", "- x"] ++ "\n") =
      joinLF (["# Changelog", ""] ++ changelogEntry "v1.1.0" "2024-03-03" :: "" ::
        "## [1.0.0] - 2024-01-01" :: ["", "- x"]) ++ "\n" ∧
    updateChangelogContent "v1.1.0" "2024-03-03" (joinLF ["# Only title"] ++ "\n") =
      joinLF (["# Only title"] ++ ["", changelogEntry "v1.1.0" "2024-03-03"]) ++ "\n" := by
  constructor
  · exact (update_changelog_frame "v1.1.0" "2024-03-03").1 ["# Changelog", ""]
      ["", "- x"] "## [1.0.0] - 2024-01-01" (by decide) (by decide) (by decide)
  · exact (update_changelog_frame "v1.1.0" "2024-03-03").2 ["# Only title"] (by decide)
      (by decide) (by decide)

/-- C10: the hash input concatenates UTF-8 relative path and content with
no separator or length framing, so the one-empty-file tree `\x7b"ab"\x7d`
and the tree with file `"a"` containing byte `b` feed the identical byte
stream `[97, 98]` to the digest, and `calculate_bundle_hash` therefore
returns the same fingerprint for both trees under every digest function,
although their (path, content) pair sets differ. -/
theorem hash_collision :
    includedPairs ⟨true, [⟨["ab"], .regular, [], true⟩]⟩ ≠
      includedPairs ⟨true, [⟨["a"], .regular, [98], true⟩]⟩ ∧
    hashStream ⟨true, [⟨["ab"], .regular, [], true⟩]⟩ = [97, 98] ∧
    hashStream ⟨true, [⟨["a"], .regular, [98], true⟩]⟩ = [97, 98] ∧
    ∀ (δ : Type) (H : List Nat → δ),
      calculate_bundle_hash H ⟨true, [⟨["ab"], .regular, [], true⟩]⟩ =
      calculate_bundle_hash H ⟨true, [⟨["a"], .regular, [98], true⟩]⟩ := by
  refine ⟨by decide, by decide, by decide, ?_⟩
  intro δ H
  have h1 : hashStream ⟨true, [⟨["ab"], .regular, [], true⟩]⟩ =
      hashStream ⟨true, [⟨["a"], .regular, [98], true⟩]⟩ := by decide
  have h2 : (sortedEntries ⟨true, [⟨["ab"], .regular, [], true⟩]⟩).find?
      (fun e => !e.readable) = none := by decide
  have h3 : (sortedEntries ⟨true, [⟨["a"], .regular, [98], true⟩]⟩).find?
      (fun e => !e.readable) = none := by decide
  simp only [calculate_bundle_hash, if_pos rfl, h2, h3, h1]

/-- C3 witness: the amended theorem applied at `7.8.9`, `minor`. -/
theorem next_version_witness :
    calculate_next_version (some "7.8.9") .minor = .ok "v7.9.0" :=
  (next_version_amended.2.1 "7.8.9" "7" "8" "9" 7 8 9 (by decide) rfl rfl rfl rfl).2.1

end CoreasonPublisher
